import Mathlib

/-!
Verification of the `vite-plugin-axon` JSX attribute transform
(`src/index.ts`).

The plugin rewrites JSX attribute expressions that contain a call
expression into zero-parameter arrow functions (thunks).  We give a
shallow embedding of the Babel expression nodes the plugin inspects,
of the JSX attribute shapes, and of the three layers of the plugin:

* `containsCall`  — the recursive call detector;
* `shouldSkip`    — the attribute exemption predicate;
* `visitJSXAttribute` / `transformElements` — the rewrite driver
  (Babel's `traverse` with the `JSXAttribute` visitor), with the
  `changed` flag threaded explicitly;
* `transform`     — the orchestrator, with the external parser and
  generator as function parameters.
-/

mutual

/-- Babel expression nodes, restricted to the kinds the plugin
distinguishes.  Every node kind the plugin does not test for is
collapsed into `identifier` / `otherExpression` (new-expressions,
sequence and assignment expressions, JSX-as-value, literals, …);
`otherExpression` keeps its children so that theorems can state that
the detector does not descend into them. -/
inductive Expr where
  | callExpression (callee : Expr) (args : List Expr)
  | templateLiteral (quasis : List String) (exprs : List Expr)
  | conditionalExpression (test consequent alternate : Expr)
  | logicalExpression (op : String) (left right : Expr)
  | binaryExpression (op : String) (left right : Expr)
  | unaryExpression (op : String) (argument : Expr)
  | memberExpression (object : Expr) (property : Expr) (computed : Bool)
  | arrayExpression (elements : List (Option Expr))
  | objectExpression (properties : List ObjectMember)
  | arrowFunctionExpression (params : List String) (body : Expr)
  | functionExpression (fnName : Option String) (params : List String) (body : Expr)
  | identifier (name : String)
  | otherExpression (children : List Expr)

/-- Members of a Babel `ObjectExpression`: ordinary / shorthand object
properties (Babel represents a shorthand property as an
`ObjectProperty` with `shorthand: true` whose value is an identifier),
spread elements, and object methods. -/
inductive ObjectMember where
  | objectProperty (shorthand : Bool) (key : Expr) (value : Expr)
  | spreadElement (argument : Expr)
  | objectMethod (body : List Expr)

end

/-- `t.isCallExpression`. -/
def isCallExpression : Expr → Bool
  | .callExpression _ _ => true
  | _ => false

/-- `t.isArrowFunctionExpression`. -/
def isArrowFunctionExpression : Expr → Bool
  | .arrowFunctionExpression _ _ => true
  | _ => false

/-- `t.isFunctionExpression`. -/
def isFunctionExpression : Expr → Bool
  | .functionExpression _ _ _ => true
  | _ => false

mutual

/-- `containsCall` from `src/index.ts` (lines 33–63): true iff the node
is a `CallExpression`, or one of the eight transparent kinds whose
listed subtrees contain one.  Everything else is an opaque leaf. -/
def containsCall : Expr → Bool
  | .callExpression _ _ => true
  | .templateLiteral _ exprs => someContainsCall exprs
  | .conditionalExpression test consequent alternate =>
      containsCall test || containsCall consequent || containsCall alternate
  | .logicalExpression _ left right => containsCall left || containsCall right
  | .binaryExpression _ left right => containsCall left || containsCall right
  | .unaryExpression _ argument => containsCall argument
  | .memberExpression object _ _ => containsCall object
  | .arrayExpression elements => someElementContainsCall elements
  | .objectExpression properties => somePropertyContainsCall properties
  | _ => false

/-- `node.expressions.some(expr => containsCall(expr))`. -/
def someContainsCall : List Expr → Bool
  | [] => false
  | e :: rest => containsCall e || someContainsCall rest

/-- `node.elements.some(el => el != null && containsCall(el))`. -/
def someElementContainsCall : List (Option Expr) → Bool
  | [] => false
  | none :: rest => someElementContainsCall rest
  | some e :: rest => containsCall e || someElementContainsCall rest

/-- `node.properties.some(prop => isObjectProperty(prop) ? containsCall(prop.value) : false)`. -/
def somePropertyContainsCall : List ObjectMember → Bool
  | [] => false
  | .objectProperty _ _ value :: rest =>
      containsCall value || somePropertyContainsCall rest
  | .spreadElement _ :: rest => somePropertyContainsCall rest
  | .objectMethod _ :: rest => somePropertyContainsCall rest

end

/-- JavaScript `String.prototype.startsWith`, on the character
sequence of the string. -/
def jsStartsWith (s pre : String) : Bool :=
  pre.data.isPrefixOf s.data

/-- JavaScript `String.prototype.endsWith`, on the character sequence
of the string. -/
def jsEndsWith (s suffix : String) : Bool :=
  suffix.data.isSuffixOf s.data

/-- JavaScript `String.prototype.length` (for the attribute names and
extensions involved, code-unit count and character count agree). -/
def jsLength (s : String) : Nat :=
  s.data.length

/-- `shouldSkip` from `src/index.ts` (lines 71–77). -/
def shouldSkip (attrName : String) (valueNode : Expr) : Bool :=
  if jsStartsWith attrName "on" && decide (jsLength attrName > 2) then true
  else if attrName == "ref" then true
  else if isArrowFunctionExpression valueNode then true
  else if isFunctionExpression valueNode then true
  else false

/-- A JSX attribute name: `t.JSXIdentifier` or `t.JSXNamespacedName`. -/
inductive JSXAttrName where
  | jsxIdentifier (name : String)
  | jsxNamespacedName (nsName : String) (localName : String)

/-- The `attrName` computation of the `JSXAttribute` visitor
(lines 116–118): the bare identifier, or `namespace:local`. -/
def attrNameString : JSXAttrName → String
  | .jsxIdentifier n => n
  | .jsxNamespacedName nsName localName => nsName ++ ":" ++ localName

/-- What a `JSXExpressionContainer` holds: an expression or a
`JSXEmptyExpression` (an elided `{}` slot). -/
inductive ContainerExpr where
  | jsxEmptyExpression
  | expr (e : Expr)

/-- A JSX attribute value: absent, a string literal, an expression
container, or a JSX element/fragment used directly as the value (not a
container, so the visitor ignores it). -/
inductive JSXAttrValue where
  | absent
  | stringLiteral (s : String)
  | jsxExpressionContainer (expression : ContainerExpr)
  | jsxElementValue

/-- A JSX attribute node. -/
structure JSXAttribute where
  name : JSXAttrName
  value : JSXAttrValue

/-- A JSX element: its attributes and its child elements (text and
expression children are irrelevant to the pass and omitted). -/
inductive JSXElement where
  | elem (tag : String) (attributes : List JSXAttribute) (children : List JSXElement)

/-- The parsed program, as the traversal sees it: the JSX elements of
the module in traversal order. -/
def Program := List JSXElement

/-- The body of the `JSXAttribute` visitor (lines 112–134): returns the
(possibly rewritten) attribute and whether `changed = true` was set for
it. -/
def visitJSXAttribute (a : JSXAttribute) : JSXAttribute × Bool :=
  match a.value with
  | .jsxExpressionContainer container =>
    match container with
    | .jsxEmptyExpression => (a, false)
    | .expr e =>
      if shouldSkip (attrNameString a.name) e then (a, false)
      else if !containsCall e then (a, false)
      else ({ a with value := JSXAttrValue.jsxExpressionContainer (.expr (.arrowFunctionExpression [] e)) }, true)
  | _ => (a, false)

mutual

/-- One step of the traversal: visit the element's attributes, then its
children; the changed flag is the disjunction over everything visited. -/
def transformElement : JSXElement → JSXElement × Bool
  | .elem tag attributes children =>
    let ra := transformAttributes attributes
    let rc := transformElements children
    (.elem tag ra.1 rc.1, ra.2 || rc.2)

/-- Visit each attribute of one element in order. -/
def transformAttributes : List JSXAttribute → List JSXAttribute × Bool
  | [] => ([], false)
  | a :: rest =>
    let r := visitJSXAttribute a
    let rs := transformAttributes rest
    (r.1 :: rs.1, r.2 || rs.2)

/-- Visit a list of elements in order. -/
def transformElements : List JSXElement → List JSXElement × Bool
  | [] => ([], false)
  | e :: rest =>
    let r := transformElement e
    let rs := transformElements rest
    (r.1 :: rs.1, r.2 || rs.2)

end

/-- The whole `traverse(ast, { JSXAttribute(path) {...} })` pass over a
parsed program, returning the mutated tree and the `changed` flag. -/
def transformProgram (p : Program) : Program × Bool :=
  transformElements p

mutual

/-- Every JSX attribute the traversal visits, in order: the element's
own attributes, then those of its children. -/
def elementAttrs : JSXElement → List JSXAttribute
  | .elem _ attributes children => attributes ++ elementsAttrs children

/-- All attributes of a list of elements. -/
def elementsAttrs : List JSXElement → List JSXAttribute
  | [] => []
  | e :: rest => elementAttrs e ++ elementsAttrs rest

end

/-- `t.isIdentifier`. -/
def isIdentifier : Expr → Bool
  | .identifier _ => true
  | _ => false

mutual

/-- Well-formedness of parser output: Babel's parser only produces a
shorthand `ObjectProperty` whose value is an `Identifier`, so a
well-formed expression satisfies that at every object expression. -/
def wfExpr : Expr → Bool
  | .callExpression callee args => wfExpr callee && wfExprList args
  | .templateLiteral _ exprs => wfExprList exprs
  | .conditionalExpression test consequent alternate =>
      wfExpr test && wfExpr consequent && wfExpr alternate
  | .logicalExpression _ left right => wfExpr left && wfExpr right
  | .binaryExpression _ left right => wfExpr left && wfExpr right
  | .unaryExpression _ argument => wfExpr argument
  | .memberExpression object property _ => wfExpr object && wfExpr property
  | .arrayExpression elements => wfElementList elements
  | .objectExpression properties => wfMembers properties
  | .arrowFunctionExpression _ body => wfExpr body
  | .functionExpression _ _ body => wfExpr body
  | .identifier _ => true
  | .otherExpression children => wfExprList children

/-- Well-formedness of an expression list. -/
def wfExprList : List Expr → Bool
  | [] => true
  | e :: rest => wfExpr e && wfExprList rest

/-- Well-formedness of an array-element list (holes are well-formed). -/
def wfElementList : List (Option Expr) → Bool
  | [] => true
  | none :: rest => wfElementList rest
  | some e :: rest => wfExpr e && wfElementList rest

/-- Well-formedness of object members: a shorthand property's value is
an identifier. -/
def wfMembers : List ObjectMember → Bool
  | [] => true
  | .objectProperty shorthand key value :: rest =>
      (!shorthand || isIdentifier value) && wfExpr key && wfExpr value && wfMembers rest
  | .spreadElement argument :: rest => wfExpr argument && wfMembers rest
  | .objectMethod body :: rest => wfExprList body && wfMembers rest

end

/-- The frame relation on attributes: the attribute is untouched, or
only its container's expression was replaced by a zero-parameter arrow
function whose body is the exact original expression node. -/
def attrWrapOnly (a a' : JSXAttribute) : Prop :=
  a' = a ∨ ∃ e, a.value = .jsxExpressionContainer (.expr e) ∧
    a' = { a with value := JSXAttrValue.jsxExpressionContainer (.expr (.arrowFunctionExpression [] e)) }

mutual

/-- The frame relation on elements: same tag, attributes pointwise in
`attrWrapOnly`, children pointwise in the same relation. -/
def elementWrapOnly : JSXElement → JSXElement → Prop
  | .elem tag attributes children, .elem tag' attributes' children' =>
      tag' = tag ∧ attrsWrapOnly attributes attributes' ∧ elementsWrapOnly children children'

/-- Pointwise `attrWrapOnly` on attribute lists of equal length. -/
def attrsWrapOnly : List JSXAttribute → List JSXAttribute → Prop
  | [], [] => True
  | a :: rest, a' :: rest' => attrWrapOnly a a' ∧ attrsWrapOnly rest rest'
  | _, _ => False

/-- Pointwise `elementWrapOnly` on element lists of equal length. -/
def elementsWrapOnly : List JSXElement → List JSXElement → Prop
  | [], [] => True
  | e :: rest, e' :: rest' => elementWrapOnly e e' ∧ elementsWrapOnly rest rest'
  | _, _ => False

end

/-- The value a Vite transform hook returns here: `null`, or
`{ code, map }`. -/
inductive TransformResult where
  | null
  | result (code : String) (map : String)

/-- The `transform(code, id)` hook (lines 94–141).  The external
collaborators are parameters: `parseFn` models `@babel/parser`'s
`parse` (with `none` standing for a thrown parse error) and
`generateFn` models `@babel/generator`'s `generate` applied to the
mutated tree and the original code, yielding `(code, map)`. -/
def transform (parseFn : String → Option Program)
    (generateFn : Program → String → String × String)
    (code id : String) : TransformResult :=
  if !(jsEndsWith id ".jsx") && !(jsEndsWith id ".tsx") then .null
  else
    match parseFn code with
    | none => .null
    | some ast =>
      let r := transformProgram ast
      if !r.2 then .null
      else
        let g := generateFn r.1 code
        .result g.1 g.2

/-- A one-element example program: `<button disabled={isDisabled()} />`. -/
def exampleProgram : Program :=
  [.elem "button" [⟨.jsxIdentifier "disabled",
     .jsxExpressionContainer (.expr (.callExpression (.identifier "isDisabled") []))⟩] []]

/-- `exampleProgram` after one pass: the attribute expression wrapped
in a thunk. -/
def exampleWrapped : Program :=
  [.elem "button" [⟨.jsxIdentifier "disabled",
     .jsxExpressionContainer (.expr (.arrowFunctionExpression [] (.callExpression (.identifier "isDisabled") [])))⟩] []]

/-- A parser stub for concrete instantiations: parses the original
source text to `exampleProgram` and the emitted output text to
`exampleWrapped`. -/
def exampleParse : String → Option Program :=
  fun s => if s = "src" then some exampleProgram
    else if s = "out" then some exampleWrapped else none

/-- A generator stub for concrete instantiations. -/
def exampleGenerate : Program → String → String × String :=
  fun _ _ => ("out", "map")

/-! ## Helper lemmas -/

theorem someContainsCall_iff (l : List Expr) :
    someContainsCall l = true ↔ ∃ x ∈ l, containsCall x = true := by
  induction l with
  | nil => simp [someContainsCall]
  | cons e rest ih => simp [someContainsCall, Bool.or_eq_true, ih]

theorem someElementContainsCall_iff (l : List (Option Expr)) :
    someElementContainsCall l = true ↔ ∃ x, some x ∈ l ∧ containsCall x = true := by
  induction l with
  | nil => simp [someElementContainsCall]
  | cons o rest ih =>
    cases o with
    | none => simp [someElementContainsCall, ih]
    | some e => simp [someElementContainsCall, Bool.or_eq_true, ih]

theorem somePropertyContainsCall_iff (l : List ObjectMember) :
    somePropertyContainsCall l = true ↔
      ∃ sh k v, ObjectMember.objectProperty sh k v ∈ l ∧ containsCall v = true := by
  induction l with
  | nil => simp [somePropertyContainsCall]
  | cons m rest ih =>
    cases m with
    | objectProperty sh k v =>
        simp only [somePropertyContainsCall, Bool.or_eq_true, ih, List.mem_cons]
        constructor
        · rintro (hv | ⟨sh', k', v', hm, hv⟩)
          · exact ⟨sh, k, v, Or.inl rfl, hv⟩
          · exact ⟨sh', k', v', Or.inr hm, hv⟩
        · rintro ⟨sh', k', v', (heq | hm), hv⟩
          · cases heq; exact Or.inl hv
          · exact Or.inr ⟨sh', k', v', hm, hv⟩
    | spreadElement arg =>
        simp [somePropertyContainsCall, ih, List.mem_cons]
    | objectMethod body =>
        simp [somePropertyContainsCall, ih, List.mem_cons]

theorem isArrowFunctionExpression_iff (e : Expr) :
    isArrowFunctionExpression e = true ↔
      ∃ params body, e = .arrowFunctionExpression params body := by
  cases e <;> simp [isArrowFunctionExpression]

theorem isFunctionExpression_iff (e : Expr) :
    isFunctionExpression e = true ↔
      ∃ fnName params body, e = .functionExpression fnName params body := by
  cases e <;> simp [isFunctionExpression]

theorem containsCall_of_isIdentifier {v : Expr} (h : isIdentifier v = true) :
    containsCall v = false := by
  cases v <;> simp_all [isIdentifier, containsCall]

theorem wfMembers_shorthand {l : List ObjectMember} (hwf : wfMembers l = true)
    {k v : Expr} (hm : ObjectMember.objectProperty true k v ∈ l) :
    isIdentifier v = true := by
  induction l with
  | nil => cases hm
  | cons m rest ih =>
    cases hm with
    | head =>
      simp [wfMembers, Bool.and_eq_true] at hwf
      exact hwf.1.1.1
    | tail _ hm' =>
      apply ih ?_ hm'
      cases m <;> (simp [wfMembers, Bool.and_eq_true] at hwf; tauto)

theorem shouldSkip_arrowFunction (name : String) (params : List String) (body : Expr) :
    shouldSkip name (.arrowFunctionExpression params body) = true := by
  simp [shouldSkip, isArrowFunctionExpression]

theorem visitJSXAttribute_idem (a : JSXAttribute) :
    visitJSXAttribute (visitJSXAttribute a).1 = ((visitJSXAttribute a).1, false) := by
  obtain ⟨nm, v⟩ := a
  cases v with
  | jsxExpressionContainer container =>
    cases container with
    | jsxEmptyExpression => simp [visitJSXAttribute]
    | expr e =>
      by_cases hs : shouldSkip (attrNameString nm) e = true
      · simp [visitJSXAttribute, hs]
      · rw [Bool.not_eq_true] at hs
        by_cases hc : containsCall e = true
        · simp [visitJSXAttribute, hs, hc, shouldSkip_arrowFunction]
        · rw [Bool.not_eq_true] at hc
          simp [visitJSXAttribute, hs, hc]
  | absent => simp [visitJSXAttribute]
  | stringLiteral s => simp [visitJSXAttribute]
  | jsxElementValue => simp [visitJSXAttribute]

theorem transformAttributes_idem (l : List JSXAttribute) :
    transformAttributes (transformAttributes l).1 = ((transformAttributes l).1, false) := by
  induction l with
  | nil => simp [transformAttributes]
  | cons a rest ih => simp [transformAttributes, visitJSXAttribute_idem a, ih]

mutual

theorem transformElement_idem : ∀ e : JSXElement,
    transformElement (transformElement e).1 = ((transformElement e).1, false)
  | .elem tag attributes children => by
      simp [transformElement, transformAttributes_idem attributes,
        transformElements_idem children]

theorem transformElements_idem : ∀ l : List JSXElement,
    transformElements (transformElements l).1 = ((transformElements l).1, false)
  | [] => by simp [transformElements]
  | e :: rest => by
      simp [transformElements, transformElement_idem e, transformElements_idem rest]

end

theorem transformAttributes_changed (l : List JSXAttribute) :
    (transformAttributes l).2 = true ↔ ∃ a ∈ l, (visitJSXAttribute a).2 = true := by
  induction l with
  | nil => simp [transformAttributes]
  | cons a rest ih => simp [transformAttributes, Bool.or_eq_true, ih]

mutual

theorem transformElement_changed : ∀ e : JSXElement,
    ((transformElement e).2 = true ↔ ∃ a ∈ elementAttrs e, (visitJSXAttribute a).2 = true)
  | .elem tag attributes children => by
      simp [transformElement, elementAttrs, Bool.or_eq_true,
        transformAttributes_changed attributes, transformElements_changed children,
        List.mem_append, or_and_right, exists_or]

theorem transformElements_changed : ∀ l : List JSXElement,
    ((transformElements l).2 = true ↔ ∃ a ∈ elementsAttrs l, (visitJSXAttribute a).2 = true)
  | [] => by simp [transformElements, elementsAttrs]
  | e :: rest => by
      simp [transformElements, elementsAttrs, Bool.or_eq_true,
        transformElement_changed e, transformElements_changed rest, List.mem_append,
        or_and_right, exists_or]

end

theorem attrWrapOnly_visit (a : JSXAttribute) : attrWrapOnly a (visitJSXAttribute a).1 := by
  obtain ⟨nm, v⟩ := a
  cases v with
  | jsxExpressionContainer container =>
    cases container with
    | jsxEmptyExpression => exact Or.inl rfl
    | expr e =>
      by_cases hs : shouldSkip (attrNameString nm) e = true
      · simp [visitJSXAttribute, hs, attrWrapOnly]
      · rw [Bool.not_eq_true] at hs
        by_cases hc : containsCall e = true
        · refine Or.inr ⟨e, rfl, ?_⟩
          simp [visitJSXAttribute, hs, hc]
        · rw [Bool.not_eq_true] at hc
          simp [visitJSXAttribute, hs, hc, attrWrapOnly]
  | absent => exact Or.inl rfl
  | stringLiteral s => exact Or.inl rfl
  | jsxElementValue => exact Or.inl rfl

theorem attrsWrapOnly_transform (l : List JSXAttribute) :
    attrsWrapOnly l (transformAttributes l).1 := by
  induction l with
  | nil => simp [transformAttributes, attrsWrapOnly]
  | cons a rest ih =>
      simp [transformAttributes, attrsWrapOnly]
      exact ⟨attrWrapOnly_visit a, ih⟩

mutual

theorem elementWrapOnly_transform : ∀ e : JSXElement,
    elementWrapOnly e (transformElement e).1
  | .elem tag attributes children => by
      simp [transformElement, elementWrapOnly]
      exact ⟨attrsWrapOnly_transform attributes, elementsWrapOnly_transform children⟩

theorem elementsWrapOnly_transform : ∀ l : List JSXElement,
    elementsWrapOnly l (transformElements l).1
  | [] => by simp [transformElements, elementsWrapOnly]
  | e :: rest => by
      simp [transformElements, elementsWrapOnly]
      exact ⟨elementWrapOnly_transform e, elementsWrapOnly_transform rest⟩

end

/-! ## Claim theorems -/

/-- Claim C1: on a well-formed expression node, `containsCall` is true
iff the node is a `CallExpression`, or it is one of the eight
recursable kinds and `containsCall` holds of one of exactly the listed
subtrees; for every other kind (arrow functions and function
expressions included) it is false. -/
theorem containsCall_characterization (e : Expr) (hwf : wfExpr e = true) :
    containsCall e = true ↔
      (∃ callee args, e = .callExpression callee args) ∨
      (∃ quasis exprs, e = .templateLiteral quasis exprs ∧
        ∃ x ∈ exprs, containsCall x = true) ∨
      (∃ test consequent alternate, e = .conditionalExpression test consequent alternate ∧
        (containsCall test = true ∨ containsCall consequent = true ∨ containsCall alternate = true)) ∨
      (∃ op left right, e = .logicalExpression op left right ∧
        (containsCall left = true ∨ containsCall right = true)) ∨
      (∃ op left right, e = .binaryExpression op left right ∧
        (containsCall left = true ∨ containsCall right = true)) ∨
      (∃ op argument, e = .unaryExpression op argument ∧ containsCall argument = true) ∨
      (∃ object property computed, e = .memberExpression object property computed ∧
        containsCall object = true) ∨
      (∃ elements, e = .arrayExpression elements ∧
        ∃ x, some x ∈ elements ∧ containsCall x = true) ∨
      (∃ properties, e = .objectExpression properties ∧
        ∃ sh k v, ObjectMember.objectProperty sh k v ∈ properties ∧ containsCall v = true) := by
  cases e <;>
    simp [containsCall, someContainsCall_iff, someElementContainsCall_iff,
      somePropertyContainsCall_iff, Bool.or_eq_true] <;>
    aesop

theorem containsCall_characterization_witness :
    containsCall (.callExpression (.identifier "f") []) = true :=
  (containsCall_characterization _ (by decide)).mpr (Or.inl ⟨.identifier "f", [], rfl⟩)

/-- Claim C2: the `JSXAttribute` visitor wraps an attribute (and
records the change) iff the value is an expression container holding a
non-empty expression, the skip classifier rejects it, and the call
detector matches; in every other case the attribute is returned
unchanged. -/
theorem visitJSXAttribute_characterization (a : JSXAttribute) :
    ((visitJSXAttribute a).2 = true ↔
      ∃ e, a.value = .jsxExpressionContainer (.expr e) ∧
        shouldSkip (attrNameString a.name) e = false ∧ containsCall e = true)
    ∧ ((visitJSXAttribute a).2 = false → visitJSXAttribute a = (a, false))
    ∧ (∀ e, a.value = .jsxExpressionContainer (.expr e) →
        shouldSkip (attrNameString a.name) e = false → containsCall e = true →
        visitJSXAttribute a = ({ a with value := JSXAttrValue.jsxExpressionContainer (.expr (.arrowFunctionExpression [] e)) }, true)) := by
  obtain ⟨nm, v⟩ := a
  cases v with
  | jsxExpressionContainer container =>
    cases container with
    | jsxEmptyExpression => simp [visitJSXAttribute]
    | expr e =>
      by_cases hs : shouldSkip (attrNameString nm) e = true
      · simp [visitJSXAttribute, hs]
      · rw [Bool.not_eq_true] at hs
        by_cases hc : containsCall e = true
        · simp [visitJSXAttribute, hs, hc]
        · rw [Bool.not_eq_true] at hc
          simp [visitJSXAttribute, hs, hc]
  | absent => simp [visitJSXAttribute]
  | stringLiteral s => simp [visitJSXAttribute]
  | jsxElementValue => simp [visitJSXAttribute]

/-- Claim C3: `shouldSkip` returns true iff one of the four independent
rules holds: the name starts with "on" and is longer than two
characters, the name is exactly "ref", the expression is an arrow
function, or it is a (named or anonymous) function expression. -/
theorem shouldSkip_characterization (attrName : String) (valueNode : Expr) :
    shouldSkip attrName valueNode = true ↔
      (jsStartsWith attrName "on" = true ∧ 2 < jsLength attrName) ∨
      attrName = "ref" ∨
      (∃ params body, valueNode = .arrowFunctionExpression params body) ∨
      (∃ fnName params body, valueNode = .functionExpression fnName params body) := by
  unfold shouldSkip
  split_ifs with h1 h2 h3 h4
  · simp only [true_iff]
    exact Or.inl ⟨(Bool.and_eq_true _ _ |>.mp h1).1, by
      have := (Bool.and_eq_true _ _ |>.mp h1).2; exact of_decide_eq_true this⟩
  · simp only [true_iff]
    exact Or.inr (Or.inl (by exact (beq_iff_eq).mp h2))
  · simp only [true_iff]
    exact Or.inr (Or.inr (Or.inl ((isArrowFunctionExpression_iff _).mp h3)))
  · simp only [true_iff]
    exact Or.inr (Or.inr (Or.inr ((isFunctionExpression_iff _).mp h4)))
  · simp only [false_iff]
    push_neg
    refine ⟨?_, ?_, ?_, ?_⟩
    · intro hpre
      by_contra hlen
      push_neg at hlen
      exact h1 (Bool.and_eq_true _ _ |>.mpr ⟨hpre, decide_eq_true hlen⟩)
    · intro heq; exact h2 (beq_iff_eq.mpr heq)
    · intro params body heq
      exact h3 ((isArrowFunctionExpression_iff _).mpr ⟨params, body, heq⟩)
    · intro fnName params body heq
      exact h4 ((isFunctionExpression_iff _).mpr ⟨fnName, params, body, heq⟩)

/-- Claim C4: the transform is idempotent — a run that rewrote the file
changed at least one attribute, and a second run on the produced output
(reparsed to the first run's mutated tree) changes nothing and returns
the "not applicable" sentinel. -/
theorem transform_idempotent (parseFn : String → Option Program)
    (generateFn : Program → String → String × String)
    (code id out m : String) (ast : Program)
    (h1 : transform parseFn generateFn code id = .result out m)
    (h2 : parseFn code = some ast)
    (h3 : parseFn out = some ((transformProgram ast).1)) :
    transform parseFn generateFn out id = .null
    ∧ (transformProgram ast).2 = true
    ∧ transformProgram ((transformProgram ast).1) = ((transformProgram ast).1, false) := by
  have hidem : transformProgram ((transformProgram ast).1) = ((transformProgram ast).1, false) :=
    transformElements_idem ast
  unfold transform at h1 ⊢
  by_cases hg : (!(jsEndsWith id ".jsx") && !(jsEndsWith id ".tsx")) = true
  · rw [if_pos hg] at h1
    cases h1
  · rw [if_neg hg] at h1 ⊢
    rw [h2] at h1
    simp only [transformProgram] at *
    refine ⟨?_, ?_, hidem⟩
    · rw [h3]
      simp only [hidem]
      rfl
    · cases hb : (transformElements ast).2 with
      | false =>
          rw [hb] at h1
          simp only [Bool.not_false, if_true] at h1
          cases h1
      | true => rfl

theorem transform_idempotent_witness :
    transform exampleParse exampleGenerate "out" "a.jsx" = .null :=
  (transform_idempotent exampleParse exampleGenerate "src" "a.jsx" "out" "map"
    exampleProgram rfl rfl rfl).1

/-- Claim C5: a file whose identifier ends in neither ".jsx" nor
".tsx" is answered with the "not applicable" sentinel whatever the
parser would return, and a parse failure is likewise answered with the
sentinel rather than raised. -/
theorem transform_gate_and_parse_failure (parseFn : String → Option Program)
    (generateFn : Program → String → String × String) (code id : String) :
    (jsEndsWith id ".jsx" = false → jsEndsWith id ".tsx" = false →
      transform parseFn generateFn code id = .null)
    ∧ (parseFn code = none → transform parseFn generateFn code id = .null) := by
  constructor
  · intro h1 h2
    unfold transform
    rw [h1, h2]
    simp
  · intro hp
    unfold transform
    rw [hp]
    split <;> rfl

/-- Claim C6: for a successfully parsed file, the transform returns the
"not applicable" sentinel iff no visited attribute was changed by the
rewrite driver, and when at least one changed it returns the
generator's rewritten text together with its source map. -/
theorem transform_changed_iff (parseFn : String → Option Program)
    (generateFn : Program → String → String × String)
    (code id : String) (ast : Program)
    (hgate : (!(jsEndsWith id ".jsx") && !(jsEndsWith id ".tsx")) = false)
    (hparse : parseFn code = some ast) :
    (transform parseFn generateFn code id = .null ↔
      ∀ a ∈ elementsAttrs ast, (visitJSXAttribute a).2 = false)
    ∧ ((∃ a ∈ elementsAttrs ast, (visitJSXAttribute a).2 = true) →
        transform parseFn generateFn code id =
          .result (generateFn (transformProgram ast).1 code).1
                  (generateFn (transformProgram ast).1 code).2) := by
  unfold transform
  rw [if_neg (by rw [hgate]; exact Bool.false_ne_true), hparse]
  have hch := transformElements_changed ast
  constructor
  · cases hb : (transformElements ast).2 with
    | false =>
      simp only [transformProgram] at *
      rw [hb] at hch
      simp only [hb]
      constructor
      · intro _ a ha
        rw [Bool.eq_false_iff]
        intro hv
        have : (false : Bool) = true := hch.mpr ⟨a, ha, hv⟩
        cases this
      · intro _
        rfl
    | true =>
      simp only [transformProgram] at *
      rw [hb] at hch
      simp only [hb]
      constructor
      · intro h
        cases h
      · intro hall
        rcases hch.mp rfl with ⟨a, ha, hv⟩
        rw [hall a ha] at hv
        cases hv
  · intro hex
    have hb : (transformElements ast).2 = true := hch.mpr hex
    simp only [transformProgram]
    rw [hb]
    rfl

theorem transform_changed_iff_witness :
    transform exampleParse exampleGenerate "src" "a.jsx" = .result "out" "map" :=
  (transform_changed_iff exampleParse exampleGenerate "src" "a.jsx" exampleProgram rfl rfl).2
    ⟨⟨.jsxIdentifier "disabled",
        .jsxExpressionContainer (.expr (.callExpression (.identifier "isDisabled") []))⟩,
      List.Mem.head _, rfl⟩

/-- Claim C7: in a well-formed object expression, a spread entry or a
shorthand property entry never causes `containsCall` to return true on
its own; only the value of an ordinary (non-shorthand) property entry
can produce a match. -/
theorem objectExpression_spread_shorthand (properties : List ObjectMember)
    (hwf : wfMembers properties = true) :
    containsCall (.objectExpression properties) = true ↔
      ∃ k v, ObjectMember.objectProperty false k v ∈ properties ∧ containsCall v = true := by
  have hrw : containsCall (.objectExpression properties) = somePropertyContainsCall properties := rfl
  rw [hrw, somePropertyContainsCall_iff]
  constructor
  · rintro ⟨sh, k, v, hm, hv⟩
    cases sh with
    | false => exact ⟨k, v, hm, hv⟩
    | true =>
      have hid := wfMembers_shorthand hwf hm
      rw [containsCall_of_isIdentifier hid] at hv
      cases hv
  · rintro ⟨k, v, hm, hv⟩
    exact ⟨false, k, v, hm, hv⟩

theorem objectExpression_spread_shorthand_witness :
    containsCall (.objectExpression
      [.objectProperty true (.identifier "a") (.identifier "a"),
       .spreadElement (.callExpression (.identifier "f") [])]) = false := by
  have h := objectExpression_spread_shorthand
      [.objectProperty true (.identifier "a") (.identifier "a"),
       .spreadElement (.callExpression (.identifier "f") [])] (by decide)
  rw [← Bool.not_eq_true]
  intro hc
  rcases h.mp hc with ⟨k, v, hm, hv⟩
  simp [List.mem_cons] at hm

/-- Claim C8: the pass only ever replaces a qualifying container's
expression by a zero-parameter arrow function whose body is the exact
original expression node; tags, element structure and every other
attribute are untouched. -/
theorem transform_frame (p : Program) :
    elementsWrapOnly p (transformProgram p).1
    ∧ ∀ a : JSXAttribute, attrWrapOnly a (visitJSXAttribute a).1 :=
  ⟨elementsWrapOnly_transform p, attrWrapOnly_visit⟩

/-- Claim C9: the skip classification is applied to the joined
canonical string `namespace:local`; a namespaced attribute whose joined
name starts with "on" and is longer than two characters is exempt from
wrapping, whatever its value. -/
theorem namespaced_attribute_skip (nsName localName : String) (v : JSXAttrValue)
    (hpre : jsStartsWith (nsName ++ ":" ++ localName) "on" = true)
    (hlen : 2 < jsLength (nsName ++ ":" ++ localName)) :
    attrNameString (.jsxNamespacedName nsName localName) = nsName ++ ":" ++ localName
    ∧ visitJSXAttribute ⟨.jsxNamespacedName nsName localName, v⟩ =
        (⟨.jsxNamespacedName nsName localName, v⟩, false) := by
  refine ⟨rfl, ?_⟩
  have hskip : ∀ e : Expr, shouldSkip (attrNameString (.jsxNamespacedName nsName localName)) e = true := by
    intro e
    unfold shouldSkip
    rw [show attrNameString (.jsxNamespacedName nsName localName) = nsName ++ ":" ++ localName from rfl]
    rw [hpre, decide_eq_true hlen]
    simp
  cases v with
  | jsxExpressionContainer container =>
    cases container with
    | jsxEmptyExpression => simp [visitJSXAttribute]
    | expr e => simp [visitJSXAttribute, hskip e]
  | absent => simp [visitJSXAttribute]
  | stringLiteral s => simp [visitJSXAttribute]
  | jsxElementValue => simp [visitJSXAttribute]

theorem namespaced_attribute_skip_witness :
    visitJSXAttribute ⟨.jsxNamespacedName "on" "click",
        .jsxExpressionContainer (.expr (.callExpression (.identifier "handler") []))⟩ =
      (⟨.jsxNamespacedName "on" "click",
        .jsxExpressionContainer (.expr (.callExpression (.identifier "handler") []))⟩, false) :=
  (namespaced_attribute_skip "on" "click" _ (by decide) (by decide)).2

/-- Claim C10: the "on" prefix heuristic is case-sensitive; an
attribute whose name does not start with lowercase "on" and is not
"ref", holding an expression that is not itself a function but
contains a call, is wrapped. -/
theorem case_sensitive_on_heuristic (name : String) (e : Expr)
    (hpre : jsStartsWith name "on" = false)
    (href : name ≠ "ref")
    (harrow : isArrowFunctionExpression e = false)
    (hfunc : isFunctionExpression e = false)
    (hcall : containsCall e = true) :
    visitJSXAttribute ⟨.jsxIdentifier name, .jsxExpressionContainer (.expr e)⟩ =
      (⟨.jsxIdentifier name, .jsxExpressionContainer (.expr (.arrowFunctionExpression [] e))⟩, true) := by
  have hskip : shouldSkip (attrNameString (.jsxIdentifier name)) e = false := by
    unfold shouldSkip
    rw [show attrNameString (.jsxIdentifier name) = name from rfl]
    rw [hpre]
    simp [href, harrow, hfunc]
  simp [visitJSXAttribute, hskip, hcall]

theorem case_sensitive_on_heuristic_witness :
    visitJSXAttribute ⟨.jsxIdentifier "OnClick",
        .jsxExpressionContainer (.expr (.callExpression (.identifier "handleClick") []))⟩ =
      (⟨.jsxIdentifier "OnClick",
        .jsxExpressionContainer (.expr (.arrowFunctionExpression []
          (.callExpression (.identifier "handleClick") [])))⟩, true) :=
  case_sensitive_on_heuristic "OnClick" _ (by decide) (by decide) (by decide) (by decide) (by decide)
